import Mathlib

/-!
Verification of the gio-v widget-toolkit core against its specification:
the press-history ink animation (`drawInk` in `wid`, source file
`part_000`), the button background / disable logic (`ButtonDef.Layout`,
`ButtonDef.LayoutBackground`), the separator layout (`wid/separator.go`),
the container builders (`wid/setup.go`), and the flex distribution
algorithm of the specification (§4.3).

Times and opacities are modelled as exact rationals (the Go code uses
float64; all constants involved are decimal), pixel sizes as naturals.
The source constants 0.9, 0.5, 0.7 are written 9/10, 1/2, 7/10.
-/

namespace GioV

/-- A press record (`Press`): start time, end time (`End.IsZero()` while
the press is still open, encoded as `none`), and the cancelled flag.  The
position field does not affect the verified properties and is omitted. -/
structure Press where
  start : ℚ
  pressEnd : Option ℚ
  cancelled : Bool

/-- The `end` local of `drawInk` (part_000 lines 112-116): the press end,
or `now` while the press has not ended. -/
def inkEnd (c : Press) (now : ℚ) : ℚ := c.pressEnd.getD now

/-- The `endt` local of `drawInk` (line 117). -/
def inkEndt (c : Press) (now : ℚ) : ℚ := inkEnd c now - c.start

/-- The `haste` local of `drawInk` (lines 119-127): nonzero only for a
cancelled press that had not fully faded in. -/
def inkHaste (c : Press) (now : ℚ) : ℚ :=
  if c.cancelled then
    if 1/2 - inkEndt c now / (9/10) > 0 then 1/2 - inkEndt c now / (9/10) else 0
  else 0

/-- The `half1` local of `drawInk` (lines 128-132), the fade-in position:
`math.Max(t/0.9+haste, 0.5)`, then set to 0.5 whenever it exceeds 0.5. -/
def inkHalf1 (c : Press) (now : ℚ) : ℚ :=
  if max ((now - c.start) / (9/10) + inkHaste c now) (1/2) > 1/2 then 1/2
  else max ((now - c.start) / (9/10) + inkHaste c now) (1/2)

/-- The `half2` local of `drawInk` (line 134), the fade-out position. -/
def inkHalf2 (c : Press) (now : ℚ) : ℚ :=
  (now - inkEnd c now) / (9/10) + inkHaste c now

/-- The early-return condition of `drawInk` (lines 135-137): the record is
fully faded out and paints nothing. -/
def inkFaded (c : Press) (now : ℚ) : Bool := decide (inkHalf2 c now > 1/2)

/-- The `alphat` local after the fade-out flip (lines 138, 149-152). -/
def inkAlphat (c : Press) (now : ℚ) : ℚ :=
  if inkHalf1 c now + inkHalf2 c now > 1/2 then 1 - (inkHalf1 c now + inkHalf2 c now)
  else inkHalf1 c now + inkHalf2 c now

/-- The `alpha` local (lines 154-156):
`0.7 * alphat * 2 * t2 * (3.0 - 3.0*alphat)` with `t2 = alphat * 2`. -/
def inkAlpha (c : Press) (now : ℚ) : ℚ :=
  7/10 * inkAlphat c now * 2 * (inkAlphat c now * 2) * (3 - 3 * inkAlphat c now)

/-- The expansion time (lines 111 and 140-143): elapsed press time,
frozen at `endt` for a cancelled press. -/
def inkT (c : Press) (now : ℚ) : ℚ :=
  if c.cancelled then inkEndt c now else now - c.start

/-- The `sizet` local (line 144): `math.Min(t*2, 1.0)`. -/
def inkSizet (c : Press) (now : ℚ) : ℚ := min (inkT c now * 2) 1

/-- The `InvalidateOp` condition (lines 145-148):
`!c.End.IsZero() || sizet <= 1.0`. -/
def inkInvalidateCond (c : Press) (now : ℚ) : Bool :=
  c.pressEnd.isSome || decide (inkSizet c now ≤ 1)

/-- The observable result of one `drawInk` call: the painted
`(alpha, sizet)` pair when the record is not fully faded, and whether an
`InvalidateOp` was added to the op list. -/
structure InkFrame where
  paint : Option (ℚ × ℚ)
  invalidate : Bool

/-- `drawInk` (lines 109-169): returns early, painting nothing and adding
no ops, when the fade-out is complete (`half2 > 0.5`); otherwise adds an
`InvalidateOp` when the line-146 condition holds and paints the ink with
opacity `alpha` and expansion position `sizet`. -/
def drawInk (c : Press) (now : ℚ) : InkFrame :=
  if inkFaded c now then { paint := none, invalidate := false }
  else { paint := some (inkAlpha c now, inkSizet c now),
         invalidate := inkInvalidateCond c now }

/-- The ink opacity painted for the record at `now` (0 when the record
paints nothing). -/
def inkOpacity (c : Press) (now : ℚ) : ℚ :=
  match (drawInk c now).paint with
  | none => 0
  | some p => p.1

/-- Whether the `drawInk` call added an `InvalidateOp` (a redraw request). -/
def inkRequestsRedraw (c : Press) (now : ℚ) : Bool := (drawInk c now).invalidate

/-- The `size` local (line 155):
`math.Max(Constraints.Min.Y, Constraints.Min.X)`. -/
def inkSize (minX minY : ℚ) : ℚ := max minY minX

/-- The expansion radius `rr` (line 162):
`size * sqrt(2) * sizet * sizet * (3 - 2*sizet)`. -/
noncomputable def inkRadius (minX minY : ℚ) (c : Press) (now : ℚ) : ℝ :=
  (inkSize minX minY : ℝ) * Real.sqrt 2 * (inkSizet c now : ℝ) *
    (inkSizet c now : ℝ) * (3 - 2 * (inkSizet c now : ℝ))

/-- Stated from the spec (claim side): the press end used by the fade
formulas, `releaseTime or now`. -/
def specEnd (c : Press) (now : ℚ) : ℚ :=
  match c.pressEnd with
  | some e => e
  | none => now

/-- Stated from the spec (claim side): `haste = 0.5 - endT/0.9` when that
quantity is positive and the record is cancelled, else 0. -/
def specHaste (c : Press) (now : ℚ) : ℚ :=
  if c.cancelled = true ∧ 1/2 - (specEnd c now - c.start) / (9/10) > 0 then
    1/2 - (specEnd c now - c.start) / (9/10)
  else 0

/-- Stated from the spec (claim side): the fade-out completion quantity
`(now - end)/0.9 + haste`; the record is removed once it exceeds 0.5. -/
def fadeOutPos (c : Press) (now : ℚ) : ℚ :=
  (now - specEnd c now) / (9/10) + specHaste c now

/-- Stated from the claim (C4, claim side): a redraw is requested iff the
record is still animating, i.e. not fully faded and either not past full
expansion (`t*2 ≤ 1`) or its press has ended. -/
def specInvalidate (c : Press) (now : ℚ) : Bool :=
  !(inkFaded c now) && (decide (inkT c now * 2 ≤ 1) || c.pressEnd.isSome)

/-- Stated from the spec (claim side): the ease curve `3s² - 2s³`. -/
def easeCurve (s : ℚ) : ℚ := 3 * s ^ 2 - 2 * s ^ 3

/-- The concrete record of the spec's fade-monotonicity scenario (§8):
`start = 0`, `end = 0.3`, not cancelled. -/
def samplePress : Press := { start := 0, pressEnd := some (3/10), cancelled := false }

/- ButtonDef / Clickable state relevant to the disable claim. -/

/-- `ButtonStyle` (part_000 lines 22-29). -/
inductive ButtonStyle
  | Contained
  | Text
  | Outlined
  | Round

/-- The theme colors that `LayoutBackground` can select among, abstracted
(their concrete RGBA values are theme data, irrelevant here). -/
inductive PaintColor
  | background
  | hoveredBackground
  | primary
  | hoveredPrimary
  | disabledPrimary

/-- The background paint operations emitted by the switch at part_000
lines 196-228: a rounded-rectangle fill and, for outlined buttons, a
border stroke. -/
structure BgOps where
  fill : PaintColor
  border : Option PaintColor

/-- The switch of `ButtonDef.LayoutBackground` (lines 196-228), keyed on
the style, on `gtx.Queue == nil` (the disabled context) and on
hovered/focused. -/
def bgOps (style : ButtonStyle) (queueNil hovered focused : Bool) : BgOps :=
  match style with
  | .Text =>
      if queueNil then { fill := .background, border := none }
      else if hovered || focused then { fill := .hoveredBackground, border := none }
      else { fill := .background, border := none }
  | .Outlined =>
      if queueNil then { fill := .background, border := some .disabledPrimary }
      else if hovered || focused then { fill := .hoveredBackground, border := some .primary }
      else { fill := .background, border := some .primary }
  | _ =>
      if queueNil then { fill := .disabledPrimary, border := none }
      else if hovered || focused then { fill := .hoveredPrimary, border := none }
      else { fill := .primary, border := none }

/-- The `ButtonDef`/`Clickable` state observed by `Layout` and
`LayoutBackground`: the press history, the flags, and the optional
external disabler pointer. -/
structure ButtonState where
  history : List Press
  disabled : Bool
  hovered : Bool
  focused : Bool
  disabler : Option Bool

/-- `ButtonDef.LayoutBackground` (lines 181-234) restricted to its paint
output: the background ops followed by one `drawInk` per record of the
press history (lines 229-231). -/
def LayoutBackground (style : ButtonStyle) (b : ButtonState) (queueNil : Bool)
    (now : ℚ) : BgOps × List InkFrame :=
  (bgOps style queueNil b.hovered b.focused,
   b.history.map (fun c => drawInk c now))

/-- The disable step of `ButtonDef.Layout` (lines 277-281):
`b.disabled = false; if b.disabler != nil && *b.disabler || GlobalDisable
{ b.disabled = true }`.  The press history is untouched. -/
def layoutSetDisabled (b : ButtonState) (globalDisable : Bool) : ButtonState :=
  { b with disabled := b.disabler.getD false || globalDisable }

/- Constraints and the separator layout. -/

/-- Gio layout constraints: `Min` and `Max` extents (pixel counts). -/
structure Constraints where
  minX : ℕ
  minY : ℕ
  maxX : ℕ
  maxY : ℕ

/-- The `Separator` layout body (separator.go lines 103-112): the returned
dimensions are `gtx.Constraints.Max` with `Y` overwritten by
`Px(thickness) + Px(padding.Top) + Px(padding.Bottom)` (all already in
pixels here). -/
def separatorSize (thickness padT padB : ℕ) (cs : Constraints) : ℕ × ℕ :=
  (cs.maxX, thickness + padT + padB)

/-- Stated from the spec (claim side): a returned size satisfies the
constraints when `min ≤ size ≤ max` componentwise. -/
def sizeWithin (cs : Constraints) (s : ℕ × ℕ) : Prop :=
  cs.minX ≤ s.1 ∧ s.1 ≤ cs.maxX ∧ cs.minY ≤ s.2 ∧ s.2 ≤ cs.maxY

instance (cs : Constraints) (s : ℕ × ℕ) : Decidable (sizeWithin cs s) := by
  unfold sizeWithin
  infer_instance

/- The flex distributor of spec §4.3. -/

/-- `SizePolicy` (spec §3): per flex child, `Fixed(px)`,
`Relative(fraction)` (represented as an exact fraction `num/den`), or
`FillRemaining`. -/
inductive SizePolicy
  | Fixed (px : ℕ)
  | Relative (num den : ℕ)
  | FillRemaining
deriving DecidableEq

/-- Modelled from the spec: the flex distribution algorithm of §4.3 is
performed by the external `gioui.org/layout.Flex`, which is not part of
this repository's sources (`wid/setup.go` only wraps children and calls
it).  First-pass length of one child: `Fixed` and `Relative`
(`fraction × L`, rounded down) amounts; `FillRemaining` contributes 0. -/
def baseLen (L : ℕ) : SizePolicy → ℕ
  | .Fixed px => px
  | .Relative num den => num * L / den
  | .FillRemaining => 0

/-- Number of `FillRemaining` children. -/
def countFill : List SizePolicy → ℕ
  | [] => 0
  | .Fixed _ :: ps => countFill ps
  | .Relative _ _ :: ps => countFill ps
  | .FillRemaining :: ps => countFill ps + 1

/-- The length of one child when each `FillRemaining` child receives `f`
and every other child its first-pass length. -/
def prelimLen (L f : ℕ) : SizePolicy → ℕ
  | .Fixed px => px
  | .Relative num den => num * L / den
  | .FillRemaining => f

/-- Modelled from the spec (§4.3): the per-child lengths before the final
remainder assignment.  If the fixed+relative lengths alone exceed `L`,
children are scaled down proportionally; otherwise the remainder
`R = L - sum` is divided equally among the `FillRemaining` children. -/
def prelim (L : ℕ) (ps : List SizePolicy) : List ℕ :=
  if (ps.map (baseLen L)).sum > L then
    (ps.map (baseLen L)).map (fun b => b * L / (ps.map (baseLen L)).sum)
  else
    ps.map (prelimLen L ((L - (ps.map (baseLen L)).sum) / countFill ps))

/-- Assign an extra amount to the last child of a distribution. -/
def absorbLast : List ℕ → ℕ → List ℕ
  | [], _ => []
  | [x], r => [x + r]
  | x :: y :: xs, r => x :: absorbLast (y :: xs) r

/-- Modelled from the spec (§4.3): the full distribution — any rounding
remainder is assigned to the last child so that the assigned lengths sum
to `L` exactly. -/
def distribute (L : ℕ) (ps : List SizePolicy) : List ℕ :=
  absorbLast (prelim L ps) (L - (prelim L ps).sum)

/- Container construction (wid/setup.go). -/

/-- A child widget: one measure+paint function from constraints to a
concrete size (`layout.Widget`). -/
abbrev Widget := Constraints → ℕ × ℕ

/-- `NodeType` (setup.go lines 7-11). -/
inductive NodeType
  | ListNode
  | FlexNode

/-- `node` (setup.go lines 14-19): a container node owning its ordered
child widgets (child nodes are leaves wrapping one widget each, so they
are modelled by the widget list directly). -/
structure Node where
  nodeType : NodeType
  children : List Widget

/-- `node.addChild` (setup.go lines 21-23). -/
def Node.addChild (n : Node) (w : Widget) : Node :=
  { n with children := n.children ++ [w] }

/-- Clamp a size to the constraints, min bound applied first
(gio `Constraints.Constrain`). -/
def constrain (cs : Constraints) (s : ℕ × ℕ) : ℕ × ℕ :=
  (min (max s.1 cs.minX) cs.maxX, min (max s.2 cs.minY) cs.maxY)

/-- Modelled from the spec: the container layout pass executed by the
external `ListStyle.Layout` / `gioui.org/layout.Flex.Layout`, neither of
which is under this repository's sources.  Per §7, a container with zero
children produces the minimum valid dimensions and is not an error; with
children it measures them in order, accumulates their extent along the
main axis, and constrains the result.  `none` would signal a layout
failure; the layout always succeeds. -/
def containerLayout (children : List Widget) (cs : Constraints) : Option (ℕ × ℕ) :=
  some (constrain cs
    (children.foldl (fun acc w => (acc.1 + (w cs).1, max acc.2 (w cs).2)) (0, 0)))

/-- `MakeList` (setup.go lines 25-35): builds a list node from the widget
sequence via `addChild` and returns the layout closure delegating to the
list layout. -/
def MakeList (ws : List Widget) : Constraints → Option (ℕ × ℕ) :=
  fun cs =>
    containerLayout
      (ws.foldl Node.addChild { nodeType := NodeType.ListNode, children := [] }).children cs

/-- `MakeFlex` (setup.go lines 55-61): builds a flex node from the widget
sequence via `addChild` and returns the layout closure delegating to the
flex layout. -/
def MakeFlex (ws : List Widget) : Constraints → Option (ℕ × ℕ) :=
  fun cs =>
    containerLayout
      (ws.foldl Node.addChild { nodeType := NodeType.FlexNode, children := [] }).children cs

/- Helper lemmas. -/

/-- The clamp at lines 129-132 first raises the fade-in position to at
least 0.5 (`math.Max`) and then lowers it to at most 0.5, so it is the
constant 0.5: the fade-in never ramps. -/
theorem inkHalf1_eq (c : Press) (now : ℚ) : inkHalf1 c now = 1/2 := by
  unfold inkHalf1
  by_cases h : max ((now - c.start) / (9/10) + inkHaste c now) (1/2) > (1/2 : ℚ)
  · rw [if_pos h]
  · rw [if_neg h]
    exact le_antisymm (not_lt.mp h) (le_max_right _ _)

theorem specHaste_eq (c : Press) (now : ℚ) : specHaste c now = inkHaste c now := by
  unfold specHaste inkHaste inkEndt inkEnd specEnd
  cases hc : c.cancelled <;> cases he : c.pressEnd <;> simp [hc, he, Option.getD]

theorem specEnd_eq (c : Press) (now : ℚ) : specEnd c now = inkEnd c now := by
  unfold specEnd inkEnd
  cases he : c.pressEnd <;> simp [he, Option.getD]

theorem ease_mono (a b : ℚ) (ha : 0 ≤ a) (hab : a ≤ b) (hb : b ≤ 1) :
    a * a * (3 - 2 * a) ≤ b * b * (3 - 2 * b) := by
  nlinarith [mul_nonneg ha (sub_nonneg.mpr hab), mul_nonneg (sub_nonneg.mpr hab) (sub_nonneg.mpr hb),
    mul_nonneg ha ha, sq_nonneg (b - a), sq_nonneg (a + b)]

theorem div_add_div_le (a b d : ℕ) : a / d + b / d ≤ (a + b) / d := by
  rcases Nat.eq_zero_or_pos d with h | h
  · subst h; simp
  · rw [Nat.le_div_iff_mul_le h, Nat.add_mul]
    exact Nat.add_le_add (Nat.div_mul_le_self a d) (Nat.div_mul_le_self b d)

theorem sum_scaled_le (B : List ℕ) (S L : ℕ) :
    (B.map (fun b => b * L / S)).sum ≤ B.sum * L / S := by
  induction B with
  | nil => simp
  | cons a B ih =>
    simp only [List.map_cons, List.sum_cons, Nat.add_mul]
    calc a * L / S + (B.map (fun b => b * L / S)).sum
        ≤ a * L / S + B.sum * L / S := Nat.add_le_add_left ih _
      _ ≤ (a * L + B.sum * L) / S := div_add_div_le _ _ _

theorem fill_sum (ps : List SizePolicy) (L f : ℕ) :
    (ps.map (prelimLen L f)).sum = (ps.map (baseLen L)).sum + countFill ps * f := by
  induction ps with
  | nil => simp [countFill]
  | cons p ps ih =>
    cases p <;> simp [countFill, prelimLen, baseLen, ih, Nat.succ_mul] <;> omega

theorem prelim_sum_le (L : ℕ) (ps : List SizePolicy) : (prelim L ps).sum ≤ L := by
  unfold prelim
  by_cases h : (ps.map (baseLen L)).sum > L
  · rw [if_pos h]
    calc ((ps.map (baseLen L)).map (fun b => b * L / (ps.map (baseLen L)).sum)).sum
        ≤ (ps.map (baseLen L)).sum * L / (ps.map (baseLen L)).sum := sum_scaled_le _ _ _
      _ = L := by
          rw [Nat.mul_comm]
          exact Nat.mul_div_cancel L (by omega)
  · rw [if_neg h]
    rw [fill_sum]
    have h2 : countFill ps * ((L - (ps.map (baseLen L)).sum) / countFill ps) ≤
        L - (ps.map (baseLen L)).sum := by
      rw [Nat.mul_comm]
      exact Nat.div_mul_le_self _ _
    omega

theorem prelim_ne_nil (L : ℕ) (ps : List SizePolicy) (h : ps ≠ []) :
    prelim L ps ≠ [] := by
  unfold prelim
  by_cases hc : (ps.map (baseLen L)).sum > L <;> simp [hc, h]

theorem absorbLast_sum (l : List ℕ) (r : ℕ) (h : l ≠ []) :
    (absorbLast l r).sum = l.sum + r := by
  induction l with
  | nil => exact absurd rfl h
  | cons x xs ih =>
    cases xs with
    | nil => simp [absorbLast]
    | cons y ys =>
      have hy := ih (by simp)
      simp only [absorbLast, List.sum_cons] at hy ⊢
      omega

/- Claim theorems. -/

/-- C1 (code_bug evidence): the fade-in position `half1` computed by
`drawInk` is the constant 0.5 (the full fade-in value) for every record
and every time — in particular already at `t = 0` for a fresh
non-cancelled press — so it does not ramp over 0.9 time-units and is
never strictly below full for `0 ≤ t < 0.45`.  The cause is
`math.Max(t/0.9+haste, 0.5)` at line 129 followed by the (now dead)
upper clamp at lines 130-132. -/
theorem inkHalf1_always_full :
    inkHalf1 { start := 0, pressEnd := none, cancelled := false } 0 = 1/2 ∧
      ∀ (c : Press) (now : ℚ), inkHalf1 c now = 1/2 :=
  ⟨inkHalf1_eq _ _, inkHalf1_eq⟩

/-- C2: for any flex distribution over a nonempty child sequence the
assigned main-axis lengths sum to the available length `L` exactly, for
every combination of `Fixed`, `Relative` and `FillRemaining` policies
and every `L ≥ 0` (modelled from spec §4.3; the distribution itself is
performed by the external `gioui.org/layout.Flex`). -/
theorem distribute_exact_sum (L : ℕ) (ps : List SizePolicy) (h : ps ≠ []) :
    (distribute L ps).sum = L := by
  have hle : (prelim L ps).sum ≤ L := prelim_sum_le L ps
  have hne : prelim L ps ≠ [] := prelim_ne_nil L ps h
  unfold distribute
  rw [absorbLast_sum _ _ hne]
  omega

/-- Witness for C2: the spec §8 scenario
`[Fixed(50), Relative(0.25), FillRemaining, FillRemaining]`, `L = 400`. -/
theorem distribute_exact_sum_witness :
    ([SizePolicy.Fixed 50, SizePolicy.Relative 1 4, SizePolicy.FillRemaining,
        SizePolicy.FillRemaining] : List SizePolicy) ≠ [] ∧
      (distribute 400 [SizePolicy.Fixed 50, SizePolicy.Relative 1 4,
        SizePolicy.FillRemaining, SizePolicy.FillRemaining]).sum = 400 :=
  ⟨by decide, distribute_exact_sum 400 _ (by decide)⟩

/-- The spec §8 scenario in full: the distribution assigns
`[50, 100, 125, 125]`. -/
theorem distribute_scenario :
    distribute 400 [SizePolicy.Fixed 50, SizePolicy.Relative 1 4,
      SizePolicy.FillRemaining, SizePolicy.FillRemaining] = [50, 100, 125, 125] := by
  decide

/-- C3 (counterexample): `Separator` does not clamp its returned size to
the constraints — with `max.Y = 5` and a 10-pixel thickness the returned
height is 10, violating `size ≤ max`. -/
theorem separator_constraint_violation :
    ¬ sizeWithin { minX := 0, minY := 0, maxX := 100, maxY := 5 }
        (separatorSize 10 0 0 { minX := 0, minY := 0, maxX := 100, maxY := 5 }) := by
  decide

/-- C3 (amended): the `Separator` layout returns width `max.X` and height
`thickness + padding.Top + padding.Bottom` with no clamping, so the
returned size satisfies `min ≤ size ≤ max` componentwise exactly when
`min.X ≤ max.X` and the computed height lies within `[min.Y, max.Y]`. -/
theorem separator_size_within_iff (t pT pB : ℕ) (cs : Constraints) :
    sizeWithin cs (separatorSize t pT pB cs) ↔
      cs.minX ≤ cs.maxX ∧ cs.minY ≤ t + pT + pB ∧ t + pT + pB ≤ cs.maxY := by
  unfold sizeWithin separatorSize
  simp only []
  omega

/-- C4 (counterexample): a fully-expanded, not-yet-faded record whose
press has not ended (here `t = 5`, so `t*2` is far past full expansion)
still causes `drawInk` to add an `InvalidateOp`, although the claim says
it must not request a redraw. -/
theorem invalidate_fully_expanded_counterexample :
    inkRequestsRedraw { start := 0, pressEnd := none, cancelled := false } 5 = true ∧
      specInvalidate { start := 0, pressEnd := none, cancelled := false } 5 = false := by
  have hf : inkFaded { start := 0, pressEnd := none, cancelled := false } 5 = false := by
    unfold inkFaded
    rw [decide_eq_false_iff_not]
    norm_num [inkHalf2, inkEnd, inkHaste]
  have hT : inkT { start := 0, pressEnd := none, cancelled := false } 5 = 5 := by
    norm_num [inkT]
  have hs : inkSizet { start := 0, pressEnd := none, cancelled := false } 5 ≤ 1 := by
    unfold inkSizet
    exact min_le_right _ _
  constructor
  · simp [inkRequestsRedraw, drawInk, hf, inkInvalidateCond, hs]
  · simp [specInvalidate, hf, hT]
    norm_num

/-- C4 (amended): `drawInk` adds an `InvalidateOp` for a record exactly
when the record is not fully faded out; the expansion-side condition
`sizet <= 1.0` at line 146 always holds because `sizet` is clamped to at
most 1, so every painted record requests a redraw. -/
theorem invalidate_iff_not_faded (c : Press) (now : ℚ) :
    inkRequestsRedraw c now = !(inkFaded c now) := by
  unfold inkRequestsRedraw drawInk
  by_cases hf : inkFaded c now
  · simp [hf]
  · have h1 : inkSizet c now ≤ 1 := by
      unfold inkSizet
      exact min_le_right _ _
    simp [hf, inkInvalidateCond, h1]

/-- C5: for the record with `start = 0`, `end = 0.3`, the ink opacity
sampled at `now = 0, 0.2, 0.5, 1.0, 2.0` peaks at `now = 0.2` and never
increases once past its peak, and the record paints nothing (opacity 0)
for every `now ≥ end + 0.9`. -/
theorem fade_monotone_after_peak :
    (inkOpacity samplePress 0 ≤ inkOpacity samplePress (1/5) ∧
        inkOpacity samplePress (1/2) ≤ inkOpacity samplePress (1/5) ∧
        inkOpacity samplePress 1 ≤ inkOpacity samplePress (1/2) ∧
        inkOpacity samplePress 2 ≤ inkOpacity samplePress 1) ∧
      ∀ now : ℚ, 3/10 + 9/10 ≤ now → inkOpacity samplePress now = 0 := by
  constructor
  · have e0 : inkOpacity samplePress 0 = 7/36 := by
      have hf : inkFaded samplePress 0 = false := by
        unfold inkFaded
        rw [decide_eq_false_iff_not]
        norm_num [inkHalf2, inkEnd, inkHaste, samplePress]
      have ha : inkAlphat samplePress 0 = 1/6 := by
        unfold inkAlphat
        rw [inkHalf1_eq]
        norm_num [inkHalf2, inkEnd, inkHaste, samplePress]
      unfold inkOpacity drawInk
      rw [hf]
      simp only [Bool.false_eq_true, if_false]
      unfold inkAlpha
      rw [ha]
      norm_num
    have e1 : inkOpacity samplePress (1/5) = 3773/4860 := by
      have hf : inkFaded samplePress (1/5) = false := by
        unfold inkFaded
        rw [decide_eq_false_iff_not]
        norm_num [inkHalf2, inkEnd, inkHaste, samplePress]
      have ha : inkAlphat samplePress (1/5) = 7/18 := by
        unfold inkAlphat
        rw [inkHalf1_eq]
        norm_num [inkHalf2, inkEnd, inkHaste, samplePress]
      unfold inkOpacity drawInk
      rw [hf]
      simp only [Bool.false_eq_true, if_false]
      unfold inkAlpha
      rw [ha]
      norm_num
    have e2 : inkOpacity samplePress (1/2) = 455/972 := by
      have hf : inkFaded samplePress (1/2) = false := by
        unfold inkFaded
        rw [decide_eq_false_iff_not]
        norm_num [inkHalf2, inkEnd, inkHaste, samplePress]
      have ha : inkAlphat samplePress (1/2) = 5/18 := by
        unfold inkAlphat
        rw [inkHalf1_eq]
        norm_num [inkHalf2, inkEnd, inkHaste, samplePress]
      unfold inkOpacity drawInk
      rw [hf]
      simp only [Bool.false_eq_true, if_false]
      unfold inkAlpha
      rw [ha]
      norm_num
    have e3 : inkOpacity samplePress 1 = 0 := by
      have hf : inkFaded samplePress 1 = true := by
        unfold inkFaded
        rw [decide_eq_true_eq]
        norm_num [inkHalf2, inkEnd, inkHaste, samplePress]
      simp [inkOpacity, drawInk, hf]
    have e4 : inkOpacity samplePress 2 = 0 := by
      have hf : inkFaded samplePress 2 = true := by
        unfold inkFaded
        rw [decide_eq_true_eq]
        norm_num [inkHalf2, inkEnd, inkHaste, samplePress]
      simp [inkOpacity, drawInk, hf]
    rw [e0, e1, e2, e3, e4]
    norm_num
  · intro now h
    have hf : inkFaded samplePress now = true := by
      have hgt : (1/2 : ℚ) < (now - 3/10) / (9/10) := by
        rw [lt_div_iff₀ (by norm_num : (0:ℚ) < 9/10)]
        linarith
      unfold inkFaded
      rw [decide_eq_true_eq]
      norm_num [inkHalf2, inkEnd, inkHaste, samplePress]
      linarith
    simp [inkOpacity, drawInk, hf]

/-- Witness for C5: at `now = 2 ≥ end + 0.9` the record paints nothing. -/
theorem fade_monotone_after_peak_witness : inkOpacity samplePress 2 = 0 :=
  fade_monotone_after_peak.2 2 (by norm_num)

/-- C6: `drawInk` paints nothing (the record is fully faded and removed
from consideration) exactly when `(now - end)/0.9 + haste > 0.5`, with
`end = releaseTime or now` and `haste = 0.5 - endT/0.9` when positive and
the record cancelled, else 0 — the claim-side formula `fadeOutPos`. -/
theorem paints_nothing_iff_fadeout (c : Press) (now : ℚ) :
    (drawInk c now).paint = none ↔ fadeOutPos c now > 1/2 := by
  have h : fadeOutPos c now = inkHalf2 c now := by
    unfold fadeOutPos inkHalf2
    rw [specHaste_eq, specEnd_eq]
  rw [h]
  unfold drawInk inkFaded
  by_cases hf : inkHalf2 c now > 1/2
  · rw [if_pos (by simpa using hf)]
    simpa using hf
  · rw [if_neg (by simpa using hf)]
    have hle := not_lt.mp hf
    simp only [Option.some.injEq]
    constructor
    · intro hc
      exact absurd hc (by simp)
    · intro hc
      exact absurd hc (not_lt.mp hf |> fun h2 => by linarith)

/-- C7: the expansion radius equals
`max(minY, minX) * sqrt 2 * (3*sizet^2 - 2*sizet^3)` with
`sizet = min(t*2, 1)` clamped to `[0, 1]`; it is 0 at the press start,
grows monotonically with time for a live press, and is frozen at the
cancellation time `endT` for a cancelled press. -/
theorem expansion_radius_ease (minX minY : ℚ) (c : Press) (now now2 : ℚ) :
    (inkRadius minX minY c now =
        (inkSize minX minY : ℝ) * Real.sqrt 2 * (easeCurve (inkSizet c now) : ℝ)) ∧
      (0 ≤ inkT c now → 0 ≤ inkSizet c now ∧ inkSizet c now ≤ 1) ∧
      (c.cancelled = false → inkSizet c c.start = 0) ∧
      (c.cancelled = true → ∀ e, c.pressEnd = some e →
        inkT c now = e - c.start ∧ inkRadius minX minY c now = inkRadius minX minY c now2) ∧
      (c.cancelled = false → 0 ≤ minX → c.start ≤ now → now ≤ now2 →
        inkRadius minX minY c now ≤ inkRadius minX minY c now2) := by
  refine ⟨?_, ?_, ?_, ?_, ?_⟩
  · unfold inkRadius easeCurve
    push_cast
    ring
  · intro h
    constructor
    · unfold inkSizet
      exact le_min (by linarith) (by norm_num)
    · unfold inkSizet
      exact min_le_right _ _
  · intro hc
    unfold inkSizet inkT
    simp [hc]
  · intro hc e he
    have ht : inkT c now = e - c.start := by
      unfold inkT inkEndt inkEnd
      simp [hc, he]
    have ht2 : inkT c now2 = e - c.start := by
      unfold inkT inkEndt inkEnd
      simp [hc, he]
    refine ⟨ht, ?_⟩
    unfold inkRadius inkSizet
    rw [ht, ht2]
  · intro hc h0 h1 h2
    have hT1 : inkT c now = now - c.start := by
      unfold inkT
      simp [hc]
    have hT2 : inkT c now2 = now2 - c.start := by
      unfold inkT
      simp [hc]
    have hs1 : 0 ≤ inkSizet c now := by
      unfold inkSizet
      rw [hT1]
      exact le_min (by linarith) (by norm_num)
    have hs12 : inkSizet c now ≤ inkSizet c now2 := by
      unfold inkSizet
      rw [hT1, hT2]
      exact min_le_min (by linarith) le_rfl
    have hs2 : inkSizet c now2 ≤ 1 := by
      unfold inkSizet
      exact min_le_right _ _
    have key := ease_mono _ _ hs1 hs12 hs2
    have hsize : (0:ℚ) ≤ inkSize minX minY := le_trans h0 (le_max_right _ _)
    have keyR : ((inkSizet c now * inkSizet c now * (3 - 2 * inkSizet c now) : ℚ) : ℝ) ≤
        ((inkSizet c now2 * inkSizet c now2 * (3 - 2 * inkSizet c now2) : ℚ) : ℝ) := by
      exact_mod_cast key
    have hA : (0:ℝ) ≤ (inkSize minX minY : ℝ) * Real.sqrt 2 :=
      mul_nonneg (by exact_mod_cast hsize) (Real.sqrt_nonneg 2)
    calc inkRadius minX minY c now
        = (inkSize minX minY : ℝ) * Real.sqrt 2 *
            ((inkSizet c now * inkSizet c now * (3 - 2 * inkSizet c now) : ℚ) : ℝ) := by
          unfold inkRadius
          push_cast
          ring
      _ ≤ (inkSize minX minY : ℝ) * Real.sqrt 2 *
            ((inkSizet c now2 * inkSizet c now2 * (3 - 2 * inkSizet c now2) : ℚ) : ℝ) :=
          mul_le_mul_of_nonneg_left keyR hA
      _ = inkRadius minX minY c now2 := by
          unfold inkRadius
          push_cast
          ring

/-- Witness for C7: a released press at `t = 2` has `sizet ∈ [0, 1]`, and
a cancelled press with `endT = 0.3` has its expansion time frozen at
`0.3` even at `now = 5`. -/
theorem expansion_radius_ease_witness :
    ((0:ℚ) ≤ inkSizet { start := 0, pressEnd := some 1, cancelled := false } 2 ∧
        inkSizet { start := 0, pressEnd := some 1, cancelled := false } 2 ≤ 1) ∧
      inkT { start := 0, pressEnd := some (3/10), cancelled := true } 5 = 3/10 - 0 := by
  refine ⟨?_, ?_⟩
  · exact (expansion_radius_ease 0 0 { start := 0, pressEnd := some 1, cancelled := false }
      2 2).2.1 (by norm_num [inkT])
  · exact ((expansion_radius_ease 0 0 { start := 0, pressEnd := some (3/10), cancelled := true }
      5 5).2.2.2.1 rfl (3/10) rfl).1

/-- C8: setting the disabled state in `ButtonDef.Layout` (from the
disabler flag or the global disable flag) leaves the press history
untouched, and the ink frames drawn by `LayoutBackground` are exactly one
`drawInk` per history record, the same list whether or not the widget is
disabled. -/
theorem disable_preserves_history (b : ButtonState) (g : Bool) (style : ButtonStyle)
    (qn qn2 : Bool) (now : ℚ) :
    (layoutSetDisabled b g).history = b.history ∧
      (LayoutBackground style (layoutSetDisabled b g) qn now).2 =
        b.history.map (fun c => drawInk c now) ∧
      (LayoutBackground style b qn now).2 = (LayoutBackground style b qn2 now).2 :=
  ⟨rfl, rfl, rfl⟩

/-- C9: `MakeList` and `MakeFlex` with an empty widget sequence return
layout functions that succeed on every constraint input, producing the
minimum valid dimensions (modelled from spec §7; the container layout
passes themselves are performed by external code). -/
theorem empty_container_min_dims (cs : Constraints) :
    (MakeList [] cs).isSome = true ∧ (MakeFlex [] cs).isSome = true ∧
      (cs.minX ≤ cs.maxX → cs.minY ≤ cs.maxY →
        MakeList [] cs = some (cs.minX, cs.minY) ∧
          MakeFlex [] cs = some (cs.minX, cs.minY)) := by
  refine ⟨rfl, rfl, fun hx hy => ?_⟩
  constructor
  · simp only [MakeList, containerLayout, constrain, List.foldl_nil, Option.some.injEq, Prod.mk.injEq]
    constructor <;> omega
  · simp only [MakeFlex, containerLayout, constrain, List.foldl_nil, Option.some.injEq, Prod.mk.injEq]
    constructor <;> omega

/-- Witness for C9: concrete well-formed constraints. -/
theorem empty_container_min_dims_witness :
    MakeList [] { minX := 1, minY := 2, maxX := 3, maxY := 4 } = some (1, 2) ∧
      MakeFlex [] { minX := 1, minY := 2, maxX := 3, maxY := 4 } = some (1, 2) :=
  (empty_container_min_dims _).2.2 (by decide) (by decide)

/-- C10: for an open (end time absent), non-cancelled press record the
opacity multiplier `alpha` computed by `drawInk` is 1.05 at every `now`,
so `alpha * 0xff = 267.75` exceeds the byte range before the conversion
`byte(alpha*0xff)` — the computed opacity is not bounded by full
opacity. -/
theorem open_press_alpha_exceeds_byte (c : Press) (now : ℚ)
    (he : c.pressEnd = none) (hc : c.cancelled = false) :
    inkAlpha c now = 21/20 ∧ inkAlpha c now * 255 > 255 := by
  have hh : inkHaste c now = 0 := by
    unfold inkHaste
    simp [hc]
  have h2 : inkHalf2 c now = 0 := by
    unfold inkHalf2 inkEnd
    rw [hh, he]
    simp
  have ha : inkAlphat c now = 1/2 := by
    unfold inkAlphat
    rw [inkHalf1_eq, h2]
    norm_num
  unfold inkAlpha
  rw [ha]
  norm_num

/-- Witness for C10: a concrete open, non-cancelled record. -/
theorem open_press_alpha_exceeds_byte_witness :
    inkAlpha { start := 0, pressEnd := none, cancelled := false } 1 = 21/20 ∧
      inkAlpha { start := 0, pressEnd := none, cancelled := false } 1 * 255 > 255 :=
  open_press_alpha_exceeds_byte _ 1 rfl rfl

end GioV
